import Mathlib

/-!
# Verification of the gitingest-mcp repository-tree aggregation core

Shallow embedding of the Rust sources:
* `crates/gitingest_mcp_tools/src/provider.rs` (data model, tree renderer)
* `crates/gitingest_mcp_tools/src/github.rs`   (GitHub provider)
* `crates/gitlab_provider/src/lib.rs`          (GitLab provider)
* `crates/gitingest_mcp_tools/src/lib.rs`      (tool executors)

External collaborators (HTTP transport, JSON decoding, the `glob` crate's
pattern engine) are abstracted as function parameters, exactly at the
boundary the code calls them.  Machine integers (`u64` sizes, `usize`
counts) are modelled as `Nat`: the counters count listing entries and the
sizes sum file sizes reported by the hosting API, far below any wrap-around.
-/

/-- `RepoItemType` from provider.rs: kind of a listing entry or tree node. -/
inductive RepoItemType where
  | File
  | Directory
deriving DecidableEq

/-- `RepoItem` from provider.rs: one item of a directory listing, as
normalized from a provider response (`size` is `Option<u64>`). -/
structure RepoItem where
  name : String
  path : String
  item_type : RepoItemType
  size : Option Nat
deriving DecidableEq

/-- `RepoNode` from provider.rs: a node of the aggregated repository tree.
Declared as an inductive because the `children` field is recursive. -/
inductive RepoNode where
  | mk (name : String) (node_type : RepoItemType) (size : Nat)
      (children : List RepoNode) (file_count : Nat) (dir_count : Nat)

/-- Field accessor: `name`. -/
def RepoNode.name : RepoNode → String
  | .mk n _ _ _ _ _ => n

/-- Field accessor: `node_type`. -/
def RepoNode.node_type : RepoNode → RepoItemType
  | .mk _ t _ _ _ _ => t

/-- Field accessor: `size`. -/
def RepoNode.size : RepoNode → Nat
  | .mk _ _ s _ _ _ => s

/-- Field accessor: `children`. -/
def RepoNode.children : RepoNode → List RepoNode
  | .mk _ _ _ cs _ _ => cs

/-- Field accessor: `file_count`. -/
def RepoNode.file_count : RepoNode → Nat
  | .mk _ _ _ _ fc _ => fc

/-- Field accessor: `dir_count`. -/
def RepoNode.dir_count : RepoNode → Nat
  | .mk _ _ _ _ _ dc => dc

/-- `GitRef` from provider.rs. -/
inductive GitRef where
  | Default
  | Branch (name : String)
  | Tag (name : String)
  | Commit (sha : String)
deriving DecidableEq

/-- `RepoSearchResult`: one repository-search hit in the common format
(`provider`, `full_name`, `description`, `stargazers_count`). -/
structure RepoSearchResult where
  provider : String
  full_name : String
  description : Option String
  stargazers_count : Nat
deriving DecidableEq

/-! ## Git-reference parsing (`parse_git_ref`, lib.rs) -/

/-- Model of Rust `str::split(sep)` for a single-character separator, on a
character list: splitting on every occurrence yields one (possibly empty)
part per gap, `n` separators giving `n + 1` parts. -/
def splitChar (sep : Char) : List Char → List (List Char)
  | [] => [[]]
  | c :: rest =>
    if c = sep then [] :: splitChar sep rest
    else
      match splitChar sep rest with
      | [] => [[c]]
      | p :: ps => (c :: p) :: ps

/-- The tail after the first occurrence of a (non-empty) separator pattern,
or `none` when the separator does not occur: `afterSep sep l = some t` says
`l` splits as `front ++ sep ++ t` at the leftmost occurrence.  Together with
`upToSep` this models element 1 of Rust `str::split(pattern)`. -/
def afterSep (sep : List Char) : List Char → Option (List Char)
  | [] => none
  | c :: rest =>
    if sep.isPrefixOf (c :: rest) then some ((c :: rest).drop sep.length)
    else afterSep sep rest

/-- The part before the next occurrence of the separator pattern (the whole
list when the separator does not occur again). -/
def upToSep (sep : List Char) : List Char → List Char
  | [] => []
  | c :: rest =>
    if sep.isPrefixOf (c :: rest) then []
    else c :: upToSep sep rest

/-- `parse_git_ref` from lib.rs (identical in `RepositoryRead` and
`RepositoryTreeView`): empty string is `Default`; a string splitting on
`:` into exactly two parts maps a recognized first part (`tag`, `commit`,
`branch`) to the matching variant of the second part; everything else is
`Branch` of the whole string. -/
def parse_git_ref (ref_str : String) : GitRef :=
  if ref_str = "" then GitRef.Default
  else
    match splitChar ':' ref_str.data with
    | [p0, p1] =>
      if p0 = "tag".data then GitRef.Tag (String.mk p1)
      else if p0 = "commit".data then GitRef.Commit (String.mk p1)
      else if p0 = "branch".data then GitRef.Branch (String.mk p1)
      else GitRef.Branch ref_str
    | _ => GitRef.Branch ref_str

/-! ## Reference resolution (github.rs / gitlab lib.rs) -/

/-- The reference-resolution `match` of `GitHubProvider::get_tree_structure`
and `GitHubProvider::get_file_content`: explicit branch/tag/commit used
verbatim; explicit `Default` resolves to the fetched default branch; with no
explicit ref the path-embedded branch is used when present, otherwise the
fetched default branch. -/
def gh_resolveRef (git_ref : Option GitRef) (path_branch : Option String)
    (default_branch : String) : Option String :=
  match git_ref with
  | some (GitRef.Branch b) => some b
  | some (GitRef.Tag t) => some t
  | some (GitRef.Commit c) => some c
  | some GitRef.Default => some default_branch
  | none =>
    match path_branch with
    | none => some default_branch
    | some b => some b

/-- The reference-resolution `match` of `GitLabProvider::get_tree_structure`
and `GitLabProvider::get_file_content`: explicit branch/tag/commit used
verbatim; explicit `Default` resolves to the metadata default branch (itself
optional); with no explicit ref the (optional) path-embedded branch is used
as-is, with no default-branch fallback. -/
def gl_resolveRef (git_ref : Option GitRef) (path_branch : Option String)
    (default_branch : Option String) : Option String :=
  match git_ref with
  | some (GitRef.Branch b) => some b
  | some (GitRef.Tag t) => some t
  | some (GitRef.Commit c) => some c
  | some GitRef.Default => default_branch
  | none => path_branch

/-- `GitHubProvider::parse_repo_path`: split on the slash character dropping
empty segments; fewer than two segments is an error; the third segment
selects a path-embedded branch when it is `tree` or `blob` and a fourth
segment exists; segments beyond the fourth form the subpath. -/
def gh_parse_repo_path (repo_path : String) :
    Except String (String × String × Option String × Option String) :=
  let segments :=
    ((splitChar '/' repo_path.data).map String.mk).filter (fun s => s ≠ "")
  if segments.length < 2 then
    Except.error ("Invalid repository path: " ++ repo_path)
  else
    let user_name := segments[0]!
    let repo_name := segments[1]!
    let branch :=
      if segments.length > 3 ∧ (segments[2]! = "tree" ∨ segments[2]! = "blob")
      then some segments[3]!
      else none
    let path :=
      if segments.length > 4 then
        some (String.intercalate "/" (segments.drop 4))
      else none
    Except.ok (user_name, repo_name, branch, path)

/-- `GitLabProvider::parse_repo_path`, restricted to the branch extraction
(the URL-encoding of the project path is an external-crate detail not
relevant to reference resolution): split on the three-character separator
slash-dash-slash; when a second part exists (the text between the first
separator and the next one or the end) and it starts with `tree/`, it
carries the path-embedded branch after that marker. -/
def gl_parse_repo_branch (repo_path : String) : Option String :=
  match afterSep (['/', '-', '/']) repo_path.data with
  | none => none
  | some tail =>
    let s1 := upToSep (['/', '-', '/']) tail
    if ("tree/").data.isPrefixOf s1 then some (String.mk (s1.drop 5)) else none

/-- Reference resolved by `GitHubProvider::get_tree_structure` for a
repository path string (parse, then resolve). -/
def gh_refName (repo_path : String) (git_ref : Option GitRef)
    (default_branch : String) : Except String (Option String) :=
  match gh_parse_repo_path repo_path with
  | Except.error e => Except.error e
  | Except.ok (_, _, path_branch, _) =>
    Except.ok (gh_resolveRef git_ref path_branch default_branch)

/-- Reference resolved by `GitLabProvider::get_tree_structure` for a
repository path string (parse, then resolve). -/
def gl_refName (repo_path : String) (git_ref : Option GitRef)
    (default_branch : Option String) : Option String :=
  gl_resolveRef git_ref (gl_parse_repo_branch repo_path) default_branch

/-! ## Pattern filter (`should_include` / `should_exclude`)

Identical code in `GitHubProvider` (github.rs) and `GitLabProvider`
(gitlab lib.rs).  The external `glob` crate is abstracted at its exact call
boundary: `globNew` models `glob::Pattern::new` (returning `none` for a
malformed pattern) and `globMatches` models `Pattern::matches`. -/

/-- Rust `str::contains(&str)`: substring containment, modelled on the
character lists. -/
def containsSub (haystack needle : String) : Prop :=
  needle.data <:+: haystack.data

instance (haystack needle : String) : Decidable (containsSub haystack needle) :=
  List.decidableInfix needle.data haystack.data

/-- One pattern's contribution inside the `any` closures of
`should_include` / `should_exclude`: compile the pattern; a malformed
pattern (compile failure) never matches. -/
def globMatch {G : Type} (globNew : String → Option G)
    (globMatches : G → String → Bool) (pattern : String) (path : String) : Bool :=
  match globNew pattern with
  | some g => globMatches g path
  | none => false

/-- `should_include`: empty include list admits everything; otherwise some
include pattern must glob-match the path. -/
def should_include {G : Type} (globNew : String → Option G)
    (globMatches : G → String → Bool) (path : String)
    (include_patterns : List String) : Bool :=
  if include_patterns.isEmpty then true
  else include_patterns.any (fun pattern => globMatch globNew globMatches pattern path)

/-- `should_exclude`: some exclude pattern glob-matches the path, or some
ignore entry is a substring of the path. -/
def should_exclude {G : Type} (globNew : String → Option G)
    (globMatches : G → String → Bool) (path : String)
    (exclude_patterns : List String) (ignore_patterns : List String) : Bool :=
  exclude_patterns.any (fun pattern => globMatch globNew globMatches pattern path)
    || ignore_patterns.any (fun p => decide (containsSub path p))

/-- The per-entry inclusion decision of both providers' `build_tree` loops:
an entry is skipped iff `!should_include || should_exclude`; it is included
iff `should_include && !should_exclude`. -/
def is_included {G : Type} (globNew : String → Option G)
    (globMatches : G → String → Bool) (path : String)
    (include_patterns exclude_patterns ignore_patterns : List String) : Bool :=
  should_include globNew globMatches path include_patterns
    && ! should_exclude globNew globMatches path exclude_patterns ignore_patterns

/-! ## Child ordering (the `sort_by` comparator of both `build_tree`s) -/

/-- The comparator passed to `children.sort_by` in both providers'
`build_tree`, as the "not greater" relation a stable sort establishes:
directories order before files, files after directories, and two nodes of
the same kind order by name (Rust `String::cmp`, byte-wise lexicographic;
UTF-8 byte order coincides with the code-point order used by Lean's
`String` order). -/
def nodeLe (a b : RepoNode) : Prop :=
  match a.node_type, b.node_type with
  | RepoItemType.Directory, RepoItemType.File => True
  | RepoItemType.File, RepoItemType.Directory => False
  | _, _ => a.name ≤ b.name

instance : DecidableRel nodeLe := fun a b => by
  unfold nodeLe
  cases a.node_type <;> cases b.node_type <;> simp <;> infer_instance

instance : IsTotal RepoNode nodeLe where
  total a b := by
    unfold nodeLe
    cases a.node_type <;> cases b.node_type <;> simp <;> exact le_total _ _

instance : IsTrans RepoNode nodeLe where
  trans a b c := by
    unfold nodeLe
    cases a.node_type <;> cases b.node_type <;> cases c.node_type <;> simp <;>
      exact fun h1 h2 => le_trans h1 h2

/-! ## Tree builder -/

/-- `MAX_FILES` (github.rs line 29 and gitlab lib.rs line 12). -/
def MAX_FILES : Nat := 500

/-- Rust `path.split('/').last().unwrap_or(path)`: the last path segment
(`split('/')` always yields at least one part, so the fallback is inert;
it is kept for fidelity). -/
def lastSegment (path : String) : String :=
  ((splitChar '/' path.data).map String.mk).getLastD path

/-- The depth-cap stub node returned by both `build_tree`s when
`depth > max_depth`. -/
def stubNode (path : String) : RepoNode :=
  RepoNode.mk (lastSegment path) RepoItemType.Directory 0 [] 0 1

mutual

/-- `GitHubProvider::build_tree`.  The owner/repo/branch arguments are
threaded unchanged into `fetch_contents` and are absorbed, together with
the HTTP transport and response decoding, into the `fetch` parameter
(path to normalized listing).  Stops with a stub above `max_depth`;
otherwise lists the directory and folds `gh_processItems` over the entries
starting from empty accumulators (`dir_count` starts at 1, counting the
node itself), then sorts the children and assembles the node. -/
def gh_buildTree {G : Type} (globNew : String → Option G)
    (globMatches : G → String → Bool)
    (fetch : String → Except String (List RepoItem))
    (exclude_patterns include_patterns ignore_patterns : List String)
    (path : String) (depth max_depth : Nat) : Except String RepoNode :=
  if _h : depth > max_depth then
    Except.ok (stubNode path)
  else
    match fetch path with
    | Except.error e => Except.error e
    | Except.ok contents =>
      match gh_processItems globNew globMatches fetch exclude_patterns
          include_patterns ignore_patterns contents depth max_depth [] 0 1 0 with
      | Except.error e => Except.error e
      | Except.ok (children, file_count, dir_count, total_size) =>
        Except.ok (RepoNode.mk (lastSegment path) RepoItemType.Directory
          total_size (List.insertionSort nodeLe children) file_count dir_count)
termination_by (2 * (max_depth + 2 - depth), 0)
decreasing_by
  all_goals omega

/-- The `for item in contents` loop of `GitHubProvider::build_tree`,
threading the four mutable accumulators (`children`, `file_count`,
`dir_count`, `total_size`): filtered-out entries are skipped; a file entry
becomes a leaf child (size `unwrap_or(0)`); a directory entry recurses at
`depth + 1`, a recursion error aborting the whole build; after each
processed entry the loop breaks once `file_count > MAX_FILES`. -/
def gh_processItems {G : Type} (globNew : String → Option G)
    (globMatches : G → String → Bool)
    (fetch : String → Except String (List RepoItem))
    (exclude_patterns include_patterns ignore_patterns : List String)
    (items : List RepoItem) (depth max_depth : Nat)
    (children : List RepoNode) (file_count dir_count total_size : Nat) :
    Except String (List RepoNode × Nat × Nat × Nat) :=
  match items with
  | [] => Except.ok (children, file_count, dir_count, total_size)
  | item :: rest =>
    if ¬ (should_include globNew globMatches item.path include_patterns = true)
        ∨ should_exclude globNew globMatches item.path exclude_patterns
            ignore_patterns = true then
      gh_processItems globNew globMatches fetch exclude_patterns
        include_patterns ignore_patterns rest depth max_depth
        children file_count dir_count total_size
    else
      match item.item_type with
      | RepoItemType.File =>
        if file_count + 1 > MAX_FILES then
          Except.ok
            (children ++ [RepoNode.mk item.name RepoItemType.File (item.size.getD 0) [] 1 0],
              file_count + 1, dir_count, total_size + item.size.getD 0)
        else
          gh_processItems globNew globMatches fetch exclude_patterns
            include_patterns ignore_patterns rest depth max_depth
            (children ++ [RepoNode.mk item.name RepoItemType.File (item.size.getD 0) [] 1 0])
            (file_count + 1) dir_count (total_size + item.size.getD 0)
      | RepoItemType.Directory =>
        match gh_buildTree globNew globMatches fetch exclude_patterns
            include_patterns ignore_patterns item.path (depth + 1) max_depth with
        | Except.error e => Except.error e
        | Except.ok child =>
          if file_count + child.file_count > MAX_FILES then
            Except.ok (children ++ [child], file_count + child.file_count,
              dir_count + child.dir_count, total_size + child.size)
          else
            gh_processItems globNew globMatches fetch exclude_patterns
              include_patterns ignore_patterns rest depth max_depth
              (children ++ [child]) (file_count + child.file_count)
              (dir_count + child.dir_count) (total_size + child.size)
termination_by (2 * (max_depth + 2 - depth) - 1, items.length)
decreasing_by
  all_goals simp_wf
  all_goals omega

end

/-- Phase one of `GitLabProvider::build_tree`'s loop: filtered-out entries
are skipped; a file entry immediately becomes a leaf child, updating
`file_count` and `total_size`; a directory entry only pushes its path onto
the `tasks` list (the recursion is deferred); after each processed entry
the loop breaks once `file_count > MAX_FILES` (during this phase the count
covers direct files only, since no recursion has run yet).  Returns the
file children, the direct-file count, the accumulated size and the deferred
directory paths. -/
def gl_collectItems {G : Type} (globNew : String → Option G)
    (globMatches : G → String → Bool)
    (exclude_patterns include_patterns ignore_patterns : List String)
    (items : List RepoItem)
    (children : List RepoNode) (file_count total_size : Nat)
    (tasks : List String) :
    List RepoNode × Nat × Nat × List String :=
  match items with
  | [] => (children, file_count, total_size, tasks)
  | item :: rest =>
    if ¬ (should_include globNew globMatches item.path include_patterns = true)
        ∨ should_exclude globNew globMatches item.path exclude_patterns
            ignore_patterns = true then
      gl_collectItems globNew globMatches exclude_patterns include_patterns
        ignore_patterns rest children file_count total_size tasks
    else
      match item.item_type with
      | RepoItemType.File =>
        if file_count + 1 > MAX_FILES then
          (children ++ [RepoNode.mk item.name RepoItemType.File (item.size.getD 0) [] 1 0],
            file_count + 1, total_size + item.size.getD 0, tasks)
        else
          gl_collectItems globNew globMatches exclude_patterns include_patterns
            ignore_patterns rest
            (children ++ [RepoNode.mk item.name RepoItemType.File (item.size.getD 0) [] 1 0])
            (file_count + 1) (total_size + item.size.getD 0) tasks
      | RepoItemType.Directory =>
        if file_count > MAX_FILES then
          (children, file_count, total_size, tasks ++ [item.path])
        else
          gl_collectItems globNew globMatches exclude_patterns include_patterns
            ignore_patterns rest children file_count total_size (tasks ++ [item.path])

mutual

/-- `GitLabProvider::build_tree`.  The project path and ref are threaded
unchanged into `fetch_repository_tree` and absorbed, with the transport and
decoding, into `fetch` (a decoding failure already yields an empty listing
inside `fetch_repository_tree`, so `fetch` errors model transport errors).
Stops with a stub above `max_depth`; otherwise lists the directory, runs
the collection loop (files now, directory recursion deferred to `tasks`),
awaits every deferred recursion via `gl_runTasks`, sorts the children and
assembles the node; an empty `path` names the node `root`, otherwise the
last path segment is used. -/
def gl_buildTree {G : Type} (globNew : String → Option G)
    (globMatches : G → String → Bool)
    (fetch : String → Except String (List RepoItem))
    (exclude_patterns include_patterns ignore_patterns : List String)
    (path : String) (depth max_depth : Nat) : Except String RepoNode :=
  if _h : depth > max_depth then
    Except.ok (stubNode path)
  else
    match fetch path with
    | Except.error e => Except.error e
    | Except.ok contents =>
      match gl_collectItems globNew globMatches exclude_patterns
          include_patterns ignore_patterns contents [] 0 0 [] with
      | (children, file_count, total_size, tasks) =>
        match gl_runTasks globNew globMatches fetch exclude_patterns
            include_patterns ignore_patterns tasks (depth + 1) max_depth
            children file_count 1 total_size with
        | (children2, file_count2, dir_count2, total_size2) =>
          Except.ok (RepoNode.mk
            (if path = "" then "root" else lastSegment path)
            RepoItemType.Directory total_size2
            (List.insertionSort nodeLe children2) file_count2 dir_count2)
termination_by (2 * (max_depth + 2 - depth), 0)
decreasing_by
  all_goals omega

/-- The `join_all(tasks)` / `for result in results` phase of
`GitLabProvider::build_tree`: every deferred directory path is built at
`depth + 1`; a successful child is pushed and its counts and size
aggregated; a failed child is only logged and dropped (`child_depth` is the
recursion depth of the child calls, i.e. the parent's depth plus one). -/
def gl_runTasks {G : Type} (globNew : String → Option G)
    (globMatches : G → String → Bool)
    (fetch : String → Except String (List RepoItem))
    (exclude_patterns include_patterns ignore_patterns : List String)
    (tasks : List String) (child_depth max_depth : Nat)
    (children : List RepoNode) (file_count dir_count total_size : Nat) :
    List RepoNode × Nat × Nat × Nat :=
  match tasks with
  | [] => (children, file_count, dir_count, total_size)
  | t :: rest =>
    match gl_buildTree globNew globMatches fetch exclude_patterns
        include_patterns ignore_patterns t child_depth max_depth with
    | Except.error _ =>
      gl_runTasks globNew globMatches fetch exclude_patterns include_patterns
        ignore_patterns rest child_depth max_depth
        children file_count dir_count total_size
    | Except.ok child =>
      gl_runTasks globNew globMatches fetch exclude_patterns include_patterns
        ignore_patterns rest child_depth max_depth
        (children ++ [child]) (file_count + child.file_count)
        (dir_count + child.dir_count) (total_size + child.size)
termination_by (2 * (max_depth + 2 - child_depth) + 1, tasks.length)
decreasing_by
  all_goals simp only [List.length_cons]
  all_goals omega

end

/-! ## Tree renderer (`create_tree_structure`, provider.rs) -/

mutual

/-- `create_tree_structure` from provider.rs: emit
`prefix + marker + node.name + "\n"` with the right-angle marker for a last
sibling and the tee marker otherwise, then render every child under the
prefix extended by four spaces (last) or a vertical bar plus three spaces
(otherwise). -/
def create_tree_structure (node : RepoNode) (pfx : String) (is_last : Bool) :
    String :=
  match node with
  | RepoNode.mk name _ _ children _ _ =>
    let marker := if is_last then "└── " else "├── "
    let childPfx := if is_last then "    " else "│   "
    pfx ++ marker ++ name ++ "\n" ++
      renderChildren children (pfx ++ childPfx) 0 children.length
termination_by sizeOf node

/-- The `for (i, child) in node.children.iter().enumerate()` loop of
`create_tree_structure`: each child is rendered with
`is_last = (i == len - 1)`, where `i` is the running index and `len` the
total number of children. -/
def renderChildren (cs : List RepoNode) (pfx : String) (i len : Nat) : String :=
  match cs with
  | [] => ""
  | c :: rest =>
    create_tree_structure c pfx (i == len - 1) ++ renderChildren rest pfx (i + 1) len
termination_by sizeOf cs

end

mutual

/-- Modelled from the spec's rendering rule (for comparison with
`create_tree_structure`): emit prefix, marker, name, newline, then recurse
into children with the extended prefix, marking a child last iff it is the
final element of the children sequence. -/
def render_spec (node : RepoNode) (pfx : String) (is_last : Bool) : String :=
  match node with
  | RepoNode.mk name _ _ children _ _ =>
    let marker := if is_last then "└── " else "├── "
    let childPfx := if is_last then "    " else "│   "
    pfx ++ marker ++ name ++ "\n" ++
      renderSpecChildren children (pfx ++ childPfx)
termination_by sizeOf node

/-- Spec-side child loop: only the final element of the list is rendered
with the last-sibling flag. -/
def renderSpecChildren (cs : List RepoNode) (pfx : String) : String :=
  match cs with
  | [] => ""
  | [c] => render_spec c pfx true
  | c :: rest => render_spec c pfx false ++ renderSpecChildren rest pfx
termination_by sizeOf cs

end

/-! ## Repository search (`FindRepositories::execute`, lib.rs, and the
providers' `search_repositories` / `find_repositories`) -/

/-- Descending star order: the relation established by
`results.sort_by(|a, b| b.stargazers_count.cmp(&a.stargazers_count))`. -/
def starsDesc (a b : RepoSearchResult) : Prop :=
  b.stargazers_count ≤ a.stargazers_count

instance : DecidableRel starsDesc := fun a b =>
  inferInstanceAs (Decidable (b.stargazers_count ≤ a.stargazers_count))

instance : IsTotal RepoSearchResult starsDesc where
  total a b := le_total b.stargazers_count a.stargazers_count

instance : IsTrans RepoSearchResult starsDesc where
  trans _ _ _ h1 h2 := le_trans h2 h1

/-- The merge step of `FindRepositories::execute`:
`.filter_map(|result| result.ok()).flatten()` over the per-provider
outcomes — failed providers are dropped, surviving result lists are
concatenated. -/
def searchMerge (outcomes : List (Except String (List RepoSearchResult))) :
    List RepoSearchResult :=
  (outcomes.filterMap Except.toOption).flatten

/-- Model of Rust `str::trim`: drop whitespace characters from both ends. -/
def trimString (s : String) : String :=
  String.mk
    (((s.data.dropWhile Char.isWhitespace).reverse.dropWhile
        Char.isWhitespace).reverse)

/-- The per-result formatting of `FindRepositories::execute`:
`- provider:full_name star-emoji stars` and the trimmed description. -/
def formatSearchResult (repo : RepoSearchResult) : String :=
  "- " ++ repo.provider ++ ":" ++ repo.full_name ++ " ⭐️" ++
    toString repo.stargazers_count ++ "\n  " ++
    (trimString (repo.description.getD "")) ++ "\n\n"

/-- The "no results" response text of `FindRepositories::execute`. -/
def noResultsMsg (query : String) : String :=
  "No repositories found matching query: \"" ++ query ++ "\""

/-- The tail of `FindRepositories::execute` after the per-provider calls,
taking the per-provider outcomes: merge (dropping failures), return the
"no results" text when the merge is empty, otherwise sort descending by
star count and format.  Every branch returns `Ok`. -/
def findRepositoriesExecute
    (outcomes : List (Except String (List RepoSearchResult)))
    (query : String) : Except String String :=
  let results := searchMerge outcomes
  if results.isEmpty then
    Except.ok (noResultsMsg query)
  else
    let sorted := List.insertionSort starsDesc results
    Except.ok ("Search results for: \"" ++ query ++ "\"\n\n" ++
      String.join (sorted.map formatSearchResult))

/-- The sorted result list of `FindRepositories::execute` (the state of
`results` after the `sort_by` call), for stating ordering properties. -/
def searchSorted (outcomes : List (Except String (List RepoSearchResult))) :
    List RepoSearchResult :=
  List.insertionSort starsDesc (searchMerge outcomes)

/-- `GitHubProvider::search_repositories` / `find_repositories` at the
claim-relevant boundary: a query that trims to empty is rejected before the
request is built (Rust `query.trim().is_empty()`, i.e. every character is
whitespace); otherwise the URL construction, HTTP exchange, status
handling and decoding are the external collaborator `net`. -/
def gh_findRepositories
    (net : String → Option Nat → Except String (List RepoSearchResult))
    (query : String) (limit : Option Nat) :
    Except String (List RepoSearchResult) :=
  if query.data.all Char.isWhitespace then
    Except.error "Empty search query is not allowed"
  else net query limit

/-- `GitLabProvider::search_repositories` / `find_repositories` at the same
boundary: the identical empty-query guard, then the external exchange. -/
def gl_findRepositories
    (net : String → Option Nat → Except String (List RepoSearchResult))
    (query : String) (limit : Option Nat) :
    Except String (List RepoSearchResult) :=
  if query.data.all Char.isWhitespace then
    Except.error "Empty search query is not allowed"
  else net query limit

/-- `FindRepositories::execute` over its two registered providers (GitHub,
GitLab): fan the query out, then run the aggregation tail. -/
def findRepositoriesTool
    (netGH netGL : String → Option Nat → Except String (List RepoSearchResult))
    (query : String) (limit : Option Nat) : Except String String :=
  findRepositoriesExecute
    [gh_findRepositories netGH query limit, gl_findRepositories netGL query limit]
    query

/-! ## Tree invariants -/

/-- Sum of the `size` fields of a list of nodes. -/
def sumSizes (cs : List RepoNode) : Nat :=
  (cs.map RepoNode.size).sum

/-- The node's own file size: its `size` when the node itself is a file
(files are leaves carrying their entry's size), and `0` for a directory
(whose direct files appear among its children). -/
def ownFileSize (n : RepoNode) : Nat :=
  match n.node_type with
  | RepoItemType.File => n.size
  | RepoItemType.Directory => 0

/-- The size invariant of claim C4, at every node of a tree: `size` equals
the sum of the children's sizes plus the node's own file size. -/
inductive SizeInv : RepoNode → Prop where
  | node : ∀ n : RepoNode,
      n.size = sumSizes n.children + ownFileSize n →
      (∀ c ∈ n.children, SizeInv c) → SizeInv n

/-- The pairwise child order of claim C5: a Directory-kind child never
follows a File-kind child, and within one kind names are non-decreasing. -/
def childOrdered (a b : RepoNode) : Prop :=
  (a.node_type = RepoItemType.File → b.node_type = RepoItemType.File) ∧
  (a.node_type = b.node_type → a.name ≤ b.name)

/-- The ordering invariant of claim C5, at every node of a tree: the
children list is pairwise ordered by `childOrdered`. -/
inductive SortInv : RepoNode → Prop where
  | node : ∀ n : RepoNode,
      List.Pairwise childOrdered n.children →
      (∀ c ∈ n.children, SortInv c) → SortInv n

theorem nodeLe_childOrdered {a b : RepoNode} (h : nodeLe a b) : childOrdered a b := by
  cases hA : a.node_type <;> cases hB : b.node_type <;>
    simp_all [nodeLe, childOrdered]

theorem sumSizes_append (a b : List RepoNode) :
    sumSizes (a ++ b) = sumSizes a + sumSizes b := by
  simp [sumSizes]

theorem sumSizes_perm {a b : List RepoNode} (h : a.Perm b) :
    sumSizes a = sumSizes b := by
  simpa [sumSizes] using (h.map RepoNode.size).sum_eq

theorem sumSizes_insertionSort (l : List RepoNode) :
    sumSizes (List.insertionSort nodeLe l) = sumSizes l :=
  sumSizes_perm (List.perm_insertionSort nodeLe l)

/-! ## Invariant preservation through the GitHub builder -/

mutual

theorem gh_buildTree_inv {G : Type} (gN : String → Option G) (gM : G → String → Bool)
    (fetch : String → Except String (List RepoItem))
    (excl incl ign : List String) (path : String) (depth maxD : Nat)
    (n : RepoNode)
    (h : gh_buildTree gN gM fetch excl incl ign path depth maxD = Except.ok n) :
    SizeInv n ∧ SortInv n := by
  rw [gh_buildTree.eq_def] at h
  split at h
  · cases h
    exact ⟨SizeInv.node _ (by simp [stubNode, sumSizes, ownFileSize, RepoNode.size,
        RepoNode.children, RepoNode.node_type]) (by simp [stubNode, RepoNode.children]),
      SortInv.node _ (by simp [stubNode, RepoNode.children]) (by simp [stubNode, RepoNode.children])⟩
  · rename_i hdep
    split at h
    · exact absurd h (by simp)
    · rename_i contents hfetch
      cases hproc : gh_processItems gN gM fetch excl incl ign contents depth maxD [] 0 1 0 with
      | error e =>
        rw [hproc] at h
        exact absurd h (by simp)
      | ok res =>
        obtain ⟨children, fc, dc, ts⟩ := res
        rw [hproc] at h
        have hmain := gh_processItems_inv gN gM fetch excl incl ign contents depth maxD
          [] 0 1 0 (by simp) (by simp [sumSizes]) (children, fc, dc, ts) hproc
        cases h
        refine ⟨SizeInv.node _ ?_ ?_, SortInv.node _ ?_ ?_⟩
        · simp only [RepoNode.size, RepoNode.children, RepoNode.node_type, ownFileSize]
          rw [sumSizes_insertionSort]
          simpa using hmain.2
        · intro c hcm
          simp only [RepoNode.children, List.mem_insertionSort] at hcm
          exact (hmain.1 c hcm).1
        · simp only [RepoNode.children]
          exact (List.sorted_insertionSort nodeLe children).imp
            (fun hab => nodeLe_childOrdered hab)
        · intro c hcm
          simp only [RepoNode.children, List.mem_insertionSort] at hcm
          exact (hmain.1 c hcm).2
termination_by (2 * (maxD + 2 - depth), 0)
decreasing_by
  all_goals omega

theorem gh_processItems_inv {G : Type} (gN : String → Option G) (gM : G → String → Bool)
    (fetch : String → Except String (List RepoItem))
    (excl incl ign : List String) (items : List RepoItem) (depth maxD : Nat)
    (children0 : List RepoNode) (fc0 dc0 ts0 : Nat)
    (hc : ∀ c ∈ children0, SizeInv c ∧ SortInv c)
    (hts : ts0 = sumSizes children0)
    (res : List RepoNode × Nat × Nat × Nat)
    (h : gh_processItems gN gM fetch excl incl ign items depth maxD
      children0 fc0 dc0 ts0 = Except.ok res) :
    (∀ c ∈ res.1, SizeInv c ∧ SortInv c) ∧ res.2.2.2 = sumSizes res.1 := by
  rcases hitems : items with _ | ⟨item, rest⟩
  · subst hitems
    rw [gh_processItems.eq_1] at h
    cases h
    exact ⟨hc, hts⟩
  · rw [hitems] at h
    rw [gh_processItems.eq_2] at h
    split at h
    · exact gh_processItems_inv gN gM fetch excl incl ign rest depth maxD
        children0 fc0 dc0 ts0 hc hts res h
    · split at h
      · -- File case
        have hxc : ∀ c ∈ children0 ++
            [RepoNode.mk item.name RepoItemType.File (item.size.getD 0) [] 1 0],
            SizeInv c ∧ SortInv c := by
          intro c hcmem
          rcases List.mem_append.mp hcmem with hmem | hmem
          · exact hc c hmem
          · simp only [List.mem_singleton] at hmem
            subst hmem
            exact ⟨SizeInv.node _ (by simp [sumSizes, ownFileSize, RepoNode.size,
                RepoNode.children, RepoNode.node_type]) (by simp [RepoNode.children]),
              SortInv.node _ (by simp [RepoNode.children]) (by simp [RepoNode.children])⟩
        have hxts : ts0 + item.size.getD 0 = sumSizes (children0 ++
            [RepoNode.mk item.name RepoItemType.File (item.size.getD 0) [] 1 0]) := by
          rw [sumSizes_append, hts]
          simp [sumSizes, RepoNode.size]
        split at h
        · cases h
          exact ⟨hxc, hxts⟩
        · exact gh_processItems_inv gN gM fetch excl incl ign rest depth maxD
            _ _ _ _ hxc hxts res h
      · -- Directory case
        split at h
        · exact absurd h (by simp)
        · rename_i child hchild
          have hchildInv := gh_buildTree_inv gN gM fetch excl incl ign _ (depth + 1) maxD
            child hchild
          have hxc : ∀ c ∈ children0 ++ [child], SizeInv c ∧ SortInv c := by
            intro c hcmem
            rcases List.mem_append.mp hcmem with hmem | hmem
            · exact hc c hmem
            · simp only [List.mem_singleton] at hmem
              subst hmem
              exact hchildInv
          have hxts : ts0 + child.size = sumSizes (children0 ++ [child]) := by
            rw [sumSizes_append, hts]
            simp [sumSizes]
          split at h
          · cases h
            exact ⟨hxc, hxts⟩
          · exact gh_processItems_inv gN gM fetch excl incl ign rest depth maxD
              _ _ _ _ hxc hxts res h
termination_by (2 * (maxD + 2 - depth) - 1, items.length)
decreasing_by
  all_goals try rw [hitems]
  all_goals simp only [List.length_cons]
  all_goals omega

end

/-! ## Invariant preservation through the GitLab builder -/

theorem gl_collectItems_inv {G : Type} (gN : String → Option G) (gM : G → String → Bool)
    (excl incl ign : List String) (items : List RepoItem)
    (children0 : List RepoNode) (fc0 ts0 : Nat) (tasks0 : List String)
    (hc : ∀ c ∈ children0, SizeInv c ∧ SortInv c)
    (hts : ts0 = sumSizes children0) :
    (∀ c ∈ (gl_collectItems gN gM excl incl ign items children0 fc0 ts0 tasks0).1,
        SizeInv c ∧ SortInv c) ∧
    (gl_collectItems gN gM excl incl ign items children0 fc0 ts0 tasks0).2.2.1 =
      sumSizes (gl_collectItems gN gM excl incl ign items children0 fc0 ts0 tasks0).1 := by
  induction items generalizing children0 fc0 ts0 tasks0 with
  | nil =>
    rw [gl_collectItems]
    exact ⟨hc, hts⟩
  | cons item rest ih =>
    rw [gl_collectItems]
    split
    · exact ih children0 fc0 ts0 tasks0 hc hts
    · split
      · have hxc : ∀ c ∈ children0 ++
            [RepoNode.mk item.name RepoItemType.File (item.size.getD 0) [] 1 0],
            SizeInv c ∧ SortInv c := by
          intro c hcmem
          rcases List.mem_append.mp hcmem with hmem | hmem
          · exact hc c hmem
          · simp only [List.mem_singleton] at hmem
            subst hmem
            exact ⟨SizeInv.node _ (by simp [sumSizes, ownFileSize, RepoNode.size,
                RepoNode.children, RepoNode.node_type]) (by simp [RepoNode.children]),
              SortInv.node _ (by simp [RepoNode.children]) (by simp [RepoNode.children])⟩
        have hxts : ts0 + item.size.getD 0 = sumSizes (children0 ++
            [RepoNode.mk item.name RepoItemType.File (item.size.getD 0) [] 1 0]) := by
          rw [sumSizes_append, hts]
          simp [sumSizes, RepoNode.size]
        split
        · exact ⟨hxc, hxts⟩
        · exact ih _ _ _ _ hxc hxts
      · split
        · exact ⟨hc, hts⟩
        · exact ih _ _ _ _ hc hts

mutual

theorem gl_buildTree_inv {G : Type} (gN : String → Option G) (gM : G → String → Bool)
    (fetch : String → Except String (List RepoItem))
    (excl incl ign : List String) (path : String) (depth maxD : Nat)
    (n : RepoNode)
    (h : gl_buildTree gN gM fetch excl incl ign path depth maxD = Except.ok n) :
    SizeInv n ∧ SortInv n := by
  rw [gl_buildTree.eq_def] at h
  split at h
  · cases h
    exact ⟨SizeInv.node _ (by simp [stubNode, sumSizes, ownFileSize, RepoNode.size,
        RepoNode.children, RepoNode.node_type]) (by simp [stubNode, RepoNode.children]),
      SortInv.node _ (by simp [stubNode, RepoNode.children]) (by simp [stubNode, RepoNode.children])⟩
  · rename_i hdep
    split at h
    · exact absurd h (by simp)
    · rename_i contents hfetch
      have hcoll := gl_collectItems_inv gN gM excl incl ign contents [] 0 0 []
        (by simp) (by simp [sumSizes])
      rcases hcoll2 : gl_collectItems gN gM excl incl ign contents [] 0 0 [] with
        ⟨children, fc, ts, tasks⟩
      rw [hcoll2] at h hcoll
      dsimp only at h
      have hrun := gl_runTasks_inv gN gM fetch excl incl ign tasks (depth + 1) maxD
        children fc 1 ts hcoll.1 hcoll.2
      rcases hrun2 : gl_runTasks gN gM fetch excl incl ign tasks (depth + 1) maxD
        children fc 1 ts with ⟨children2, fc2, dc2, ts2⟩
      rw [hrun2] at h hrun
      dsimp only at h
      cases h
      refine ⟨SizeInv.node _ ?_ ?_, SortInv.node _ ?_ ?_⟩
      · simp only [RepoNode.size, RepoNode.children, RepoNode.node_type, ownFileSize]
        rw [sumSizes_insertionSort]
        simpa using hrun.2
      · intro c hcm
        simp only [RepoNode.children, List.mem_insertionSort] at hcm
        exact (hrun.1 c hcm).1
      · simp only [RepoNode.children]
        exact (List.sorted_insertionSort nodeLe children2).imp
          (fun hab => nodeLe_childOrdered hab)
      · intro c hcm
        simp only [RepoNode.children, List.mem_insertionSort] at hcm
        exact (hrun.1 c hcm).2
termination_by (2 * (maxD + 2 - depth), 0)
decreasing_by
  all_goals omega

theorem gl_runTasks_inv {G : Type} (gN : String → Option G) (gM : G → String → Bool)
    (fetch : String → Except String (List RepoItem))
    (excl incl ign : List String) (tasks : List String) (childDepth maxD : Nat)
    (children0 : List RepoNode) (fc0 dc0 ts0 : Nat)
    (hc : ∀ c ∈ children0, SizeInv c ∧ SortInv c)
    (hts : ts0 = sumSizes children0) :
    (∀ c ∈ (gl_runTasks gN gM fetch excl incl ign tasks childDepth maxD
        children0 fc0 dc0 ts0).1, SizeInv c ∧ SortInv c) ∧
    (gl_runTasks gN gM fetch excl incl ign tasks childDepth maxD
        children0 fc0 dc0 ts0).2.2.2 =
      sumSizes (gl_runTasks gN gM fetch excl incl ign tasks childDepth maxD
        children0 fc0 dc0 ts0).1 := by
  rcases htasks : tasks with _ | ⟨t, rest⟩
  · rw [gl_runTasks.eq_1]
    exact ⟨hc, hts⟩
  · rw [gl_runTasks.eq_2]
    split
    · exact gl_runTasks_inv gN gM fetch excl incl ign rest childDepth maxD
        children0 fc0 dc0 ts0 hc hts
    · rename_i child hchild
      have hchildInv := gl_buildTree_inv gN gM fetch excl incl ign t childDepth maxD
        child hchild
      have hxc : ∀ c ∈ children0 ++ [child], SizeInv c ∧ SortInv c := by
        intro c hcmem
        rcases List.mem_append.mp hcmem with hmem | hmem
        · exact hc c hmem
        · simp only [List.mem_singleton] at hmem
          subst hmem
          exact hchildInv
      have hxts : ts0 + child.size = sumSizes (children0 ++ [child]) := by
        rw [sumSizes_append, hts]
        simp [sumSizes]
      exact gl_runTasks_inv gN gM fetch excl incl ign rest childDepth maxD
        _ _ _ _ hxc hxts
termination_by (2 * (maxD + 2 - childDepth) + 1, tasks.length)
decreasing_by
  all_goals try simp only [htasks, List.length_cons]
  all_goals omega

end

/-! ## Shared concrete inputs for witnesses -/

/-- A trivial glob engine with no compilable patterns, for concrete runs
with empty filter lists. -/
def trivGlobNew : String → Option Unit := fun _ => none

/-- The matcher of the trivial glob engine. -/
def trivGlobMatches : Unit → String → Bool := fun _ _ => false

/-- A concrete content fetcher: one 7-byte file `a.rs` at the repository
root, nothing anywhere else. -/
def oneFileFetch : String → Except String (List RepoItem) := fun p =>
  if p = "" then Except.ok [⟨"a.rs", "a.rs", RepoItemType.File, some 7⟩]
  else Except.ok []

/-! ## Claims C4 and C5 -/

/-- C4: for every tree returned by `build_tree` (either provider), at every
node recursively, `size` equals the sum of `child.size` over the children
plus the node's own file size (for a file leaf its own entry size, a
missing listed size having contributed 0 through `unwrap_or(0)`; a
directory's direct files appear among its children). -/
theorem c4_size_aggregation :
    (∀ (G : Type) (globNew : String → Option G) (globMatches : G → String → Bool)
      (fetch : String → Except String (List RepoItem))
      (exclude_patterns include_patterns ignore_patterns : List String)
      (path : String) (depth max_depth : Nat) (n : RepoNode),
      gh_buildTree globNew globMatches fetch exclude_patterns include_patterns
        ignore_patterns path depth max_depth = Except.ok n → SizeInv n) ∧
    (∀ (G : Type) (globNew : String → Option G) (globMatches : G → String → Bool)
      (fetch : String → Except String (List RepoItem))
      (exclude_patterns include_patterns ignore_patterns : List String)
      (path : String) (depth max_depth : Nat) (n : RepoNode),
      gl_buildTree globNew globMatches fetch exclude_patterns include_patterns
        ignore_patterns path depth max_depth = Except.ok n → SizeInv n) :=
  ⟨fun _ gN gM fetch excl incl ign path depth maxD n h =>
      (gh_buildTree_inv gN gM fetch excl incl ign path depth maxD n h).1,
    fun _ gN gM fetch excl incl ign path depth maxD n h =>
      (gl_buildTree_inv gN gM fetch excl incl ign path depth maxD n h).1⟩

/-- Witness for C4: the invariant instantiated on the trees both builders
return for a concrete one-file listing. -/
theorem c4_size_aggregation_witness :
    SizeInv (RepoNode.mk "" RepoItemType.Directory 7
      [RepoNode.mk "a.rs" RepoItemType.File 7 [] 1 0] 1 1) ∧
    SizeInv (RepoNode.mk "root" RepoItemType.Directory 7
      [RepoNode.mk "a.rs" RepoItemType.File 7 [] 1 0] 1 1) :=
  ⟨c4_size_aggregation.1 Unit trivGlobNew trivGlobMatches oneFileFetch [] [] [] "" 0 10 _
      (by simp [gh_buildTree, gh_processItems, oneFileFetch, should_include,
        should_exclude, MAX_FILES, lastSegment, splitChar, List.insertionSort,
        List.orderedInsert]),
    c4_size_aggregation.2 Unit trivGlobNew trivGlobMatches oneFileFetch [] [] [] "" 0 10 _
      (by simp [gl_buildTree, gl_collectItems, gl_runTasks, oneFileFetch, should_include,
        should_exclude, MAX_FILES, List.insertionSort, List.orderedInsert])⟩

/-- C5: for every node of every tree returned by `build_tree` (either
provider), the children list is totally ordered: Directory-kind children
precede File-kind children, and within one kind names are non-decreasing
in the byte-wise string order. -/
theorem c5_children_sorted :
    (∀ (G : Type) (globNew : String → Option G) (globMatches : G → String → Bool)
      (fetch : String → Except String (List RepoItem))
      (exclude_patterns include_patterns ignore_patterns : List String)
      (path : String) (depth max_depth : Nat) (n : RepoNode),
      gh_buildTree globNew globMatches fetch exclude_patterns include_patterns
        ignore_patterns path depth max_depth = Except.ok n → SortInv n) ∧
    (∀ (G : Type) (globNew : String → Option G) (globMatches : G → String → Bool)
      (fetch : String → Except String (List RepoItem))
      (exclude_patterns include_patterns ignore_patterns : List String)
      (path : String) (depth max_depth : Nat) (n : RepoNode),
      gl_buildTree globNew globMatches fetch exclude_patterns include_patterns
        ignore_patterns path depth max_depth = Except.ok n → SortInv n) :=
  ⟨fun _ gN gM fetch excl incl ign path depth maxD n h =>
      (gh_buildTree_inv gN gM fetch excl incl ign path depth maxD n h).2,
    fun _ gN gM fetch excl incl ign path depth maxD n h =>
      (gl_buildTree_inv gN gM fetch excl incl ign path depth maxD n h).2⟩

/-- Witness for C5: the ordering invariant instantiated on the trees both
builders return for a concrete one-file listing. -/
theorem c5_children_sorted_witness :
    SortInv (RepoNode.mk "" RepoItemType.Directory 7
      [RepoNode.mk "a.rs" RepoItemType.File 7 [] 1 0] 1 1) ∧
    SortInv (RepoNode.mk "root" RepoItemType.Directory 7
      [RepoNode.mk "a.rs" RepoItemType.File 7 [] 1 0] 1 1) :=
  ⟨c5_children_sorted.1 Unit trivGlobNew trivGlobMatches oneFileFetch [] [] [] "" 0 10 _
      (by simp [gh_buildTree, gh_processItems, oneFileFetch, should_include,
        should_exclude, MAX_FILES, lastSegment, splitChar, List.insertionSort,
        List.orderedInsert]),
    c5_children_sorted.2 Unit trivGlobNew trivGlobMatches oneFileFetch [] [] [] "" 0 10 _
      (by simp [gl_buildTree, gl_collectItems, gl_runTasks, oneFileFetch, should_include,
        should_exclude, MAX_FILES, List.insertionSort, List.orderedInsert])⟩

/-! ## Claim C6: depth cap -/

/-- C6: whenever `build_tree` (either provider) is entered with
`depth > max_depth` (the callers fix `max_depth` at 10), it returns `Ok`
with a stub directory node named after the path's last segment, with
`file_count = 0`, `dir_count = 1`, `size = 0` and no children; the result
is the same for every content fetcher, so no content fetch influences it —
recursion hard-stops without erroring. -/
theorem c6_depth_cap :
    ∀ (G : Type) (globNew : String → Option G) (globMatches : G → String → Bool)
      (fetch : String → Except String (List RepoItem))
      (exclude_patterns include_patterns ignore_patterns : List String)
      (path : String) (depth max_depth : Nat),
      max_depth < depth →
      gh_buildTree globNew globMatches fetch exclude_patterns include_patterns
          ignore_patterns path depth max_depth =
        Except.ok (RepoNode.mk (lastSegment path) RepoItemType.Directory 0 [] 0 1) ∧
      gl_buildTree globNew globMatches fetch exclude_patterns include_patterns
          ignore_patterns path depth max_depth =
        Except.ok (RepoNode.mk (lastSegment path) RepoItemType.Directory 0 [] 0 1) := by
  intro G gN gM fetch excl incl ign path depth maxD h
  constructor
  · rw [gh_buildTree.eq_def]
    simp [h, stubNode]
  · rw [gl_buildTree.eq_def]
    simp [h, stubNode]

/-- Witness for C6: at `max_depth = 10` and `depth = 11`, with a fetcher
that always fails, both builders still return the stub node. -/
theorem c6_depth_cap_witness :
    gh_buildTree trivGlobNew trivGlobMatches (fun _ => Except.error "network down")
        [] [] [] "sub/dir" 11 10 =
      Except.ok (RepoNode.mk (lastSegment "sub/dir") RepoItemType.Directory 0 [] 0 1) ∧
    gl_buildTree trivGlobNew trivGlobMatches (fun _ => Except.error "network down")
        [] [] [] "sub/dir" 11 10 =
      Except.ok (RepoNode.mk (lastSegment "sub/dir") RepoItemType.Directory 0 [] 0 1) :=
  c6_depth_cap Unit trivGlobNew trivGlobMatches (fun _ => Except.error "network down")
    [] [] [] "sub/dir" 11 10 (by decide)

/-! ## Claim C1: reference-resolution precedence -/

/-- Counterexample for C1: for the GitLab provider with no explicit ref and
a path with no embedded branch, the resolved ref is `none` — the remote
default branch (here `"main"`, fetched into the repository metadata) is
never used, contrary to the claimed precedence for both providers. -/
theorem c1_counterexample :
    gl_refName "owner/repo" none (some "main") = none := rfl

/-- C1 amended: an explicit `Branch`/`Tag`/`Commit` ref is used verbatim by
both providers even when the path embeds a branch; with no explicit ref and
a path-embedded branch, both providers use the path-embedded branch; with
no explicit ref and no path-embedded branch, GitHub resolves to the fetched
remote default branch, while GitLab resolves to no reference at all (the
path-embedded branch slot, empty), never consulting the default branch. -/
theorem c1_reference_precedence :
    (∀ (b : String) (pb : Option String) (d : String),
      gh_resolveRef (some (GitRef.Branch b)) pb d = some b ∧
      gh_resolveRef (some (GitRef.Tag b)) pb d = some b ∧
      gh_resolveRef (some (GitRef.Commit b)) pb d = some b) ∧
    (∀ (b : String) (pb : Option String) (d : Option String),
      gl_resolveRef (some (GitRef.Branch b)) pb d = some b ∧
      gl_resolveRef (some (GitRef.Tag b)) pb d = some b ∧
      gl_resolveRef (some (GitRef.Commit b)) pb d = some b) ∧
    (∀ (m d : String), gh_resolveRef none (some m) d = some m) ∧
    (∀ (m : String) (d : Option String), gl_resolveRef none (some m) d = some m) ∧
    (∀ d : String, gh_resolveRef none none d = some d) ∧
    (∀ d : Option String, gl_resolveRef none none d = none) ∧
    (∀ d : String,
      gh_refName "owner/repo/tree/main" (some (GitRef.Branch "dev")) d =
        Except.ok (some "dev") ∧
      gh_refName "owner/repo/tree/main" none d = Except.ok (some "main") ∧
      gh_refName "owner/repo" none d = Except.ok (some d)) ∧
    (∀ d : Option String,
      gl_refName "ns/repo/-/tree/main" (some (GitRef.Branch "dev")) d = some "dev" ∧
      gl_refName "ns/repo/-/tree/main" none d = some "main" ∧
      gl_refName "ns/repo" none d = none) :=
  ⟨fun _ pb _ => by cases pb <;> exact ⟨rfl, rfl, rfl⟩,
    fun _ pb _ => by cases pb <;> exact ⟨rfl, rfl, rfl⟩,
    fun _ _ => rfl, fun _ _ => rfl, fun _ => rfl, fun _ => rfl,
    fun _ => ⟨rfl, rfl, rfl⟩, fun _ => ⟨rfl, rfl, rfl⟩⟩

/-! ## Claim C2: empty search query -/

/-- Counterexample for C2: an empty query to the repository-search tool
does not fail — even with providers whose network layer would return a hit,
the call succeeds with the "no repositories found" text (each provider
rejected the empty query internally and `FindRepositories::execute` dropped
those errors via `filter_map(Result::ok)`). -/
theorem c2_counterexample :
    findRepositoriesTool
      (fun _ _ => Except.ok [⟨"github", "x/y", none, 5⟩])
      (fun _ _ => Except.ok [⟨"gitlab", "a/b", none, 50⟩]) "" none =
    Except.ok "No repositories found matching query: \"\"" := rfl

/-- C2 amended: for every empty (or all-whitespace) query, each provider's
`search_repositories` fails with its invalid-input error before the network
collaborator is consulted (the outcome is the same for every network
function), but the tool-level call itself succeeds, returning the
"no repositories found" response after silently dropping both provider
errors. -/
theorem c2_empty_query :
    ∀ (netGH netGL : String → Option Nat → Except String (List RepoSearchResult))
      (query : String) (limit : Option Nat),
      (∀ c ∈ query.data, c.isWhitespace) →
      gh_findRepositories netGH query limit =
          Except.error "Empty search query is not allowed" ∧
      gl_findRepositories netGL query limit =
          Except.error "Empty search query is not allowed" ∧
      findRepositoriesTool netGH netGL query limit =
          Except.ok (noResultsMsg query) := by
  intro netGH netGL query limit hws
  have hall : query.data.all Char.isWhitespace = true := by
    rw [List.all_eq_true]
    intro c hcmem
    exact hws c hcmem
  refine ⟨?_, ?_, ?_⟩
  · rw [gh_findRepositories, if_pos hall]
  · rw [gl_findRepositories, if_pos hall]
  · rw [findRepositoriesTool, gh_findRepositories, gl_findRepositories,
      if_pos hall, if_pos hall]
    rfl

/-- Witness for C2 (amended): the empty query with concrete result-bearing
network functions. -/
theorem c2_empty_query_witness :
    gh_findRepositories (fun _ _ => Except.ok [⟨"github", "x/y", none, 5⟩]) "" none =
        Except.error "Empty search query is not allowed" ∧
    gl_findRepositories (fun _ _ => Except.ok [⟨"gitlab", "a/b", none, 50⟩]) "" none =
        Except.error "Empty search query is not allowed" ∧
    findRepositoriesTool
        (fun _ _ => Except.ok [⟨"github", "x/y", none, 5⟩])
        (fun _ _ => Except.ok [⟨"gitlab", "a/b", none, 50⟩]) "" none =
      Except.ok (noResultsMsg "") :=
  c2_empty_query _ _ "" none (by intro c hcmem; simp at hcmem)

/-! ## Claim C7: filter semantics -/

/-- C7: for every path and every triple of include globs, exclude globs and
ignore substrings (over any glob engine), an entry is included iff the
include list is empty or some include pattern glob-matches, and no exclude
pattern glob-matches nor any ignore entry occurs as a substring; a pattern
the engine cannot compile never matches, so an all-malformed non-empty
include list admits nothing, and malformed excludes exclude nothing. -/
theorem c7_filter_rule :
    (∀ (G : Type) (globNew : String → Option G) (globMatches : G → String → Bool)
      (path : String) (include_patterns exclude_patterns ignore_patterns : List String),
      is_included globNew globMatches path include_patterns exclude_patterns
          ignore_patterns = true ↔
        ((include_patterns = [] ∨
            ∃ p ∈ include_patterns, globMatch globNew globMatches p path = true) ∧
          ¬ ((∃ p ∈ exclude_patterns, globMatch globNew globMatches p path = true) ∨
            ∃ s ∈ ignore_patterns, containsSub path s))) ∧
    (∀ (G : Type) (globNew : String → Option G) (globMatches : G → String → Bool)
      (pattern path : String), globNew pattern = none →
      globMatch globNew globMatches pattern path = false) ∧
    (∀ (G : Type) (globNew : String → Option G) (globMatches : G → String → Bool)
      (path : String) (include_patterns exclude_patterns ignore_patterns : List String),
      include_patterns ≠ [] →
      (∀ p ∈ include_patterns, globNew p = none) →
      is_included globNew globMatches path include_patterns exclude_patterns
        ignore_patterns = false) ∧
    (∀ (G : Type) (globNew : String → Option G) (globMatches : G → String → Bool)
      (path : String) (exclude_patterns ignore_patterns : List String),
      (∀ p ∈ exclude_patterns, globNew p = none) →
      (∀ s ∈ ignore_patterns, ¬ containsSub path s) →
      should_exclude globNew globMatches path exclude_patterns ignore_patterns
        = false) := by
  refine ⟨?_, ?_, ?_, ?_⟩
  · intro G gN gM path incl excl ign
    simp [is_included, should_include, should_exclude, List.isEmpty_iff,
      List.any_eq_true, not_or]
  · intro G gN gM pattern path hmal
    simp [globMatch, hmal]
  · intro G gN gM path incl excl ign hne hmal
    simp [is_included, should_include, List.isEmpty_iff, hne, List.any_eq_true]
    intro p hp
    simp [globMatch, hmal p hp]
  · intro G gN gM path excl ign hmal hign
    simp [should_exclude, List.any_eq_true]
    constructor
    · intro p hp
      simp [globMatch, hmal p hp]
    · intro s hs
      exact hign s hs

/-- Witness for C7: over the pattern-free engine, a non-empty include list
of uncompilable patterns admits nothing, and an uncompilable exclude list
with empty ignores excludes nothing. -/
theorem c7_filter_rule_witness :
    is_included trivGlobNew trivGlobMatches "src/main.rs" ["["] [] [] = false ∧
    should_exclude trivGlobNew trivGlobMatches "src/main.rs" ["["] [] = false :=
  ⟨c7_filter_rule.2.2.1 Unit trivGlobNew trivGlobMatches "src/main.rs" ["["] [] []
      (by decide) (fun _ _ => rfl),
    c7_filter_rule.2.2.2 Unit trivGlobNew trivGlobMatches "src/main.rs" ["["] []
      (fun _ _ => rfl) (by intro s hs; simp at hs)⟩

theorem searchMerge_filter_ok (outcomes : List (Except String (List RepoSearchResult))) :
    searchMerge (outcomes.filter (fun o => o.toOption.isSome)) = searchMerge outcomes := by
  induction outcomes with
  | nil => rfl
  | cons o rest ih =>
    cases o with
    | error e =>
      simp only [searchMerge, List.filter, List.filterMap] at ih ⊢
      simpa [Except.toOption] using ih
    | ok l =>
      simp only [searchMerge, List.filter, List.filterMap] at ih ⊢
      simpa [Except.toOption] using ih

/-! ## Claim C8: search aggregation -/

/-- C8: the repository-search aggregation never fails because a provider
fails: the outcome is always `Ok`; removing the failed providers from the
outcome list changes nothing (their errors are dropped silently); the
sorted merge is pairwise descending by `stargazers_count`; when every
provider fails the response is the "no results" text, not an error; and on
the spec's example the 50-star result precedes the 5-star one across
providers. -/
theorem c8_search_aggregation :
    (∀ (outcomes : List (Except String (List RepoSearchResult))) (query : String),
      ∃ s, findRepositoriesExecute outcomes query = Except.ok s) ∧
    (∀ (outcomes : List (Except String (List RepoSearchResult))) (query : String),
      findRepositoriesExecute (outcomes.filter (fun o => o.toOption.isSome)) query =
        findRepositoriesExecute outcomes query) ∧
    (∀ outcomes : List (Except String (List RepoSearchResult)),
      List.Pairwise starsDesc (searchSorted outcomes)) ∧
    (∀ (outcomes : List (Except String (List RepoSearchResult))) (query : String),
      (∀ o ∈ outcomes, o.toOption = none) →
      findRepositoriesExecute outcomes query = Except.ok (noResultsMsg query)) ∧
    searchSorted [Except.ok [⟨"github", "x/y", none, 5⟩],
        Except.ok [⟨"gitlab", "a/b", none, 50⟩]] =
      [⟨"gitlab", "a/b", none, 50⟩, ⟨"github", "x/y", none, 5⟩] := by
  refine ⟨?_, ?_, ?_, ?_, ?_⟩
  · intro outcomes query
    rw [findRepositoriesExecute]
    split
    · exact ⟨_, rfl⟩
    · exact ⟨_, rfl⟩
  · intro outcomes query
    rw [findRepositoriesExecute, findRepositoriesExecute, searchMerge_filter_ok]
  · intro outcomes
    exact List.sorted_insertionSort starsDesc (searchMerge outcomes)
  · intro outcomes query hfail
    have hmerge : searchMerge outcomes = [] := by
      rw [searchMerge]
      have : outcomes.filterMap Except.toOption = [] := by
        rw [List.filterMap_eq_nil_iff]
        intro o ho
        exact hfail o ho
      rw [this]
      rfl
    rw [findRepositoriesExecute, hmerge]
    rfl
  · rfl

/-- Witness for C8: when both providers fail, the response is the
"no results" text. -/
theorem c8_search_aggregation_witness :
    findRepositoriesExecute [Except.error "rate limited", Except.error "timeout"] "rust" =
      Except.ok (noResultsMsg "rust") :=
  c8_search_aggregation.2.2.2.1 [Except.error "rate limited", Except.error "timeout"]
    "rust" (by
      intro o ho
      simp only [List.mem_cons, List.mem_singleton, List.not_mem_nil, or_false] at ho
      rcases ho with h | h <;> subst h <;> rfl)

/-! ## Claim C9: tree rendering -/

mutual

theorem create_eq_render_spec (node : RepoNode) (pfx : String) (is_last : Bool) :
    create_tree_structure node pfx is_last = render_spec node pfx is_last := by
  rcases node with ⟨name, t, s, children, fc, dc⟩
  rw [create_tree_structure, render_spec]
  rw [renderChildren_eq_spec children
    (pfx ++ (if is_last then "    " else "│   ")) 0 children.length (by omega)]
termination_by (sizeOf node, 1)
decreasing_by
  all_goals simp_wf
  all_goals omega

theorem renderChildren_eq_spec (cs : List RepoNode) (pfx : String) (i len : Nat)
    (h : len = i + cs.length) :
    renderChildren cs pfx i len = renderSpecChildren cs pfx := by
  rcases hcs : cs with _ | ⟨c, rest⟩
  · rw [renderChildren, renderSpecChildren]
  · rcases hrest : rest with _ | ⟨c2, rest2⟩
    · have hi : (i == len - 1) = true := by
        subst hcs hrest
        simp only [List.length_cons, List.length_nil] at h
        simp only [beq_iff_eq]
        omega
      rw [renderChildren, hi, renderChildren, renderSpecChildren,
        create_eq_render_spec c pfx true]
      simp
    · have hi : (i == len - 1) = false := by
        subst hcs hrest
        simp only [List.length_cons] at h
        simp only [beq_eq_false_iff_ne, ne_eq]
        omega
      have hrec := renderChildren_eq_spec (c2 :: rest2) pfx (i + 1) len
        (by subst hcs hrest; simp only [List.length_cons] at h ⊢; omega)
      rw [renderChildren, hi, create_eq_render_spec c pfx false, hrec,
        renderSpecChildren.eq_3 pfx c (c2 :: rest2) (by simp)]
termination_by (sizeOf cs, 0)
decreasing_by
  all_goals subst hcs
  all_goals try subst hrest
  all_goals simp_wf
  all_goals omega

end

/-- C9: `create_tree_structure` emits `prefix + marker + name + newline`
(right-angle marker when last, tee marker otherwise), recursing into each
child with the prefix extended by four spaces under a last sibling and a
vertical bar plus three spaces otherwise, a child being last iff it is the
final element of the children list (the enumerate-index formulation of the
code coincides with the spec's final-element rule); in particular a root
directory holding one directory `src` holding one file `a.txt` renders
exactly the spec's three-line snapshot with 4-column steps. -/
theorem c9_renderer :
    (∀ (node : RepoNode) (pfx : String) (is_last : Bool),
      create_tree_structure node pfx is_last = render_spec node pfx is_last) ∧
    create_tree_structure
      (RepoNode.mk "root" RepoItemType.Directory 0
        [RepoNode.mk "src" RepoItemType.Directory 0
          [RepoNode.mk "a.txt" RepoItemType.File 0 [] 1 0] 1 1] 1 2) "" true =
    "└── root\n    └── src\n        └── a.txt\n" :=
  ⟨create_eq_render_spec,
    by simp [create_tree_structure, renderChildren]⟩

/-! ## Claim C10: git-ref parsing -/

theorem splitChar_ne_nil (sep : Char) (l : List Char) : splitChar sep l ≠ [] := by
  induction l with
  | nil => simp [splitChar]
  | cons c rest ih =>
    rw [splitChar]
    split
    · simp
    · split
      · simp
      · simp

theorem length_splitChar (sep : Char) (l : List Char) :
    (splitChar sep l).length = l.count sep + 1 := by
  induction l with
  | nil => simp [splitChar]
  | cons c rest ih =>
    rw [splitChar]
    by_cases hc : c = sep
    · simp [hc, List.count_cons, ih]
    · simp only [hc, if_false]
      cases hs : splitChar sep rest with
      | nil => exact absurd hs (splitChar_ne_nil sep rest)
      | cons p ps =>
        rw [hs] at ih
        simp only [List.length_cons] at ih
        simp [List.count_cons, hc, ih]

theorem splitChar_of_count_zero (sep : Char) (l : List Char)
    (h : l.count sep = 0) : splitChar sep l = [l] := by
  induction l with
  | nil => rfl
  | cons c rest ih =>
    rw [List.count_cons] at h
    by_cases hc : c = sep
    · simp [hc] at h
    · rw [splitChar, if_neg hc, ih (by simpa [hc] using h)]

theorem splitChar_of_count_one (sep : Char) (l : List Char)
    (h : l.count sep = 1) :
    splitChar sep l =
      [l.takeWhile (fun c => c != sep), (l.dropWhile (fun c => c != sep)).tail] := by
  induction l with
  | nil => simp at h
  | cons c rest ih =>
    rw [List.count_cons] at h
    by_cases hc : c = sep
    · subst hc
      have h0 : List.count c rest = 0 := by
        simp at h
        omega
      have hb : ¬ ((c != c) = true) := by simp
      rw [splitChar, if_pos rfl, splitChar_of_count_zero c rest h0,
        @List.takeWhile_cons_of_neg Char (fun x => x != c) c rest hb,
        @List.dropWhile_cons_of_neg Char (fun x => x != c) c rest hb]
      rfl
    · have hb : ((c != sep) = true) := by simp [hc]
      rw [splitChar, if_neg hc, ih (by simpa [hc] using h),
        @List.takeWhile_cons_of_pos Char (fun x => x != sep) c rest hb,
        @List.dropWhile_cons_of_pos Char (fun x => x != sep) c rest hb]

/-- Modelled from the claim's wording, for comparison with `parse_git_ref`:
the empty string maps to `Default`; a string with exactly one colon whose
part before the colon is `tag`, `commit` or `branch` maps to the matching
variant of the part after the colon; every other string (no colon, two or
more colons, or an unrecognized label) maps to `Branch` of the whole
string. -/
def parse_git_ref_claim (s : String) : GitRef :=
  if s = "" then GitRef.Default
  else if s.data.count ':' = 1 then
    if s.data.takeWhile (fun c => c != ':') = "tag".data then
      GitRef.Tag (String.mk ((s.data.dropWhile (fun c => c != ':')).tail))
    else if s.data.takeWhile (fun c => c != ':') = "commit".data then
      GitRef.Commit (String.mk ((s.data.dropWhile (fun c => c != ':')).tail))
    else if s.data.takeWhile (fun c => c != ':') = "branch".data then
      GitRef.Branch (String.mk ((s.data.dropWhile (fun c => c != ':')).tail))
    else GitRef.Branch s
  else GitRef.Branch s

/-- C10: `parse_git_ref` maps every string exactly as the claim describes,
deterministically and totally. -/
theorem c10_parse_git_ref :
    ∀ s : String, parse_git_ref s = parse_git_ref_claim s := by
  intro s
  rw [parse_git_ref, parse_git_ref_claim]
  by_cases hs : s = ""
  · simp [hs]
  · rw [if_neg hs, if_neg hs]
    rcases hcount : s.data.count ':' with _ | n
    · rw [splitChar_of_count_zero ':' s.data hcount]
      simp
    · rcases n with _ | m
      · rw [splitChar_of_count_one ':' s.data hcount]
        simp
      · have hlen := length_splitChar ':' s.data
        rw [hcount] at hlen
        rcases hsplit : splitChar ':' s.data with _ | ⟨a, _ | ⟨b, _ | ⟨c3, r⟩⟩⟩ <;>
            rw [hsplit] at hlen <;>
            simp only [List.length_nil, List.length_cons] at hlen
        · omega
        · omega
        · omega
        · rfl

/-! ## Claim C3: the per-level file cap -/

theorem gh_processItems_allFiles {G : Type} (gN : String → Option G)
    (gM : G → String → Bool) (fetch : String → Except String (List RepoItem))
    (items : List RepoItem) (depth maxD : Nat)
    (children0 : List RepoNode) (fc0 dc0 ts0 : Nat)
    (hfiles : ∀ it ∈ items, it.item_type = RepoItemType.File)
    (hfc0 : fc0 ≤ MAX_FILES) :
    ∃ cs ts, gh_processItems gN gM fetch [] [] [] items depth maxD
      children0 fc0 dc0 ts0 =
      Except.ok (cs, min (fc0 + items.length) (MAX_FILES + 1), dc0, ts) := by
  induction items generalizing children0 fc0 ts0 with
  | nil =>
    rw [gh_processItems.eq_1]
    have hm : min (fc0 + List.length ([] : List RepoItem)) (MAX_FILES + 1) = fc0 := by
      simp only [List.length_nil, MAX_FILES] at hfc0 ⊢
      omega
    exact ⟨children0, ts0, by rw [hm]⟩
  | cons it rest ih =>
    have hit := hfiles it (by simp)
    have hcond : ¬ (¬ should_include gN gM it.path [] = true ∨
        should_exclude gN gM it.path [] [] = true) := by
      simp [should_include, should_exclude]
    rw [gh_processItems.eq_2, if_neg hcond, hit]
    dsimp only
    by_cases hbreak : fc0 + 1 > MAX_FILES
    · rw [if_pos hbreak]
      have hm : min (fc0 + (it :: rest).length) (MAX_FILES + 1) = fc0 + 1 := by
        simp only [List.length_cons, MAX_FILES] at hbreak hfc0 ⊢
        omega
      exact ⟨children0 ++ [RepoNode.mk it.name RepoItemType.File (it.size.getD 0) [] 1 0],
        ts0 + it.size.getD 0, by rw [hm]⟩
    · rw [if_neg hbreak]
      obtain ⟨cs, ts, hrec⟩ := ih
        (children0 ++ [RepoNode.mk it.name RepoItemType.File (it.size.getD 0) [] 1 0])
        (fc0 + 1) (ts0 + it.size.getD 0)
        (fun it2 h2 => hfiles it2 (by simp [h2]))
        (by simp only [MAX_FILES] at hbreak ⊢; omega)
      have hm : min (fc0 + (it :: rest).length) (MAX_FILES + 1) =
          min (fc0 + 1 + rest.length) (MAX_FILES + 1) := by
        simp only [List.length_cons]
        omega
      exact ⟨cs, ts, by rw [hm]; exact hrec⟩

theorem gh_buildTree_allFiles {G : Type} (gN : String → Option G)
    (gM : G → String → Bool) (fetch : String → Except String (List RepoItem))
    (path : String) (depth maxD : Nat) (items : List RepoItem)
    (hdep : depth ≤ maxD) (hfetch : fetch path = Except.ok items)
    (hfiles : ∀ it ∈ items, it.item_type = RepoItemType.File) :
    ∃ node, gh_buildTree gN gM fetch [] [] [] path depth maxD = Except.ok node ∧
      node.file_count = min items.length (MAX_FILES + 1) ∧ node.dir_count = 1 := by
  rw [gh_buildTree.eq_def, dif_neg (by omega), hfetch]
  dsimp only
  obtain ⟨cs, ts, hproc⟩ := gh_processItems_allFiles gN gM fetch items depth maxD
    [] 0 1 0 hfiles (by simp [MAX_FILES])
  rw [hproc]
  dsimp only
  exact ⟨_, rfl, by simp [RepoNode.file_count], by simp [RepoNode.dir_count]⟩

theorem gl_collectItems_allFiles {G : Type} (gN : String → Option G)
    (gM : G → String → Bool) (items : List RepoItem)
    (children0 : List RepoNode) (fc0 ts0 : Nat) (tasks0 : List String)
    (hfiles : ∀ it ∈ items, it.item_type = RepoItemType.File)
    (hfc0 : fc0 ≤ MAX_FILES) :
    ∃ cs ts, gl_collectItems gN gM [] [] [] items children0 fc0 ts0 tasks0 =
      (cs, min (fc0 + items.length) (MAX_FILES + 1), ts, tasks0) := by
  induction items generalizing children0 fc0 ts0 with
  | nil =>
    rw [gl_collectItems]
    have hm : min (fc0 + List.length ([] : List RepoItem)) (MAX_FILES + 1) = fc0 := by
      simp only [List.length_nil, MAX_FILES] at hfc0 ⊢
      omega
    exact ⟨children0, ts0, by rw [hm]⟩
  | cons it rest ih =>
    have hit := hfiles it (by simp)
    have hcond : ¬ (¬ should_include gN gM it.path [] = true ∨
        should_exclude gN gM it.path [] [] = true) := by
      simp [should_include, should_exclude]
    rw [gl_collectItems, if_neg hcond, hit]
    dsimp only
    by_cases hbreak : fc0 + 1 > MAX_FILES
    · rw [if_pos hbreak]
      have hm : min (fc0 + (it :: rest).length) (MAX_FILES + 1) = fc0 + 1 := by
        simp only [List.length_cons, MAX_FILES] at hbreak hfc0 ⊢
        omega
      exact ⟨children0 ++ [RepoNode.mk it.name RepoItemType.File (it.size.getD 0) [] 1 0],
        ts0 + it.size.getD 0, by rw [hm]⟩
    · rw [if_neg hbreak]
      obtain ⟨cs, ts, hrec⟩ := ih
        (children0 ++ [RepoNode.mk it.name RepoItemType.File (it.size.getD 0) [] 1 0])
        (fc0 + 1) (ts0 + it.size.getD 0)
        (fun it2 h2 => hfiles it2 (by simp [h2]))
        (by simp only [MAX_FILES] at hbreak ⊢; omega)
      have hm : min (fc0 + (it :: rest).length) (MAX_FILES + 1) =
          min (fc0 + 1 + rest.length) (MAX_FILES + 1) := by
        simp only [List.length_cons]
        omega
      exact ⟨cs, ts, by rw [hm]; exact hrec⟩

theorem gl_buildTree_allFiles {G : Type} (gN : String → Option G)
    (gM : G → String → Bool) (fetch : String → Except String (List RepoItem))
    (path : String) (depth maxD : Nat) (items : List RepoItem)
    (hdep : depth ≤ maxD) (hfetch : fetch path = Except.ok items)
    (hfiles : ∀ it ∈ items, it.item_type = RepoItemType.File) :
    ∃ node, gl_buildTree gN gM fetch [] [] [] path depth maxD = Except.ok node ∧
      node.file_count = min items.length (MAX_FILES + 1) ∧ node.dir_count = 1 := by
  rw [gl_buildTree.eq_def, dif_neg (by omega), hfetch]
  dsimp only
  obtain ⟨cs, ts, hcoll⟩ := gl_collectItems_allFiles gN gM items [] 0 0 []
    hfiles (by simp [MAX_FILES])
  rw [hcoll]
  dsimp only
  rw [gl_runTasks.eq_1]
  dsimp only
  exact ⟨_, rfl, by simp [RepoNode.file_count], by simp [RepoNode.dir_count]⟩

/-- Synthetic listing of `n` files (no reported sizes). -/
def mkFiles (n : Nat) (pfx : String) : List RepoItem :=
  (List.range n).map
    (fun i => ⟨"f" ++ toString i, pfx ++ "f" ++ toString i, RepoItemType.File, none⟩)

theorem mkFiles_length (n : Nat) (pfx : String) : (mkFiles n pfx).length = n := by
  simp [mkFiles]

theorem mkFiles_files (n : Nat) (pfx : String) :
    ∀ it ∈ mkFiles n pfx, it.item_type = RepoItemType.File := by
  intro it hmem
  simp only [mkFiles, List.mem_map] at hmem
  obtain ⟨i, _, rfl⟩ := hmem
  rfl

/-- A concrete fetcher with two directories of 400 files each. -/
def dirsFetch : String → Except String (List RepoItem) := fun p =>
  if p = "" then
    Except.ok [⟨"d1", "d1", RepoItemType.Directory, none⟩,
      ⟨"d2", "d2", RepoItemType.Directory, none⟩]
  else if p = "d1" then Except.ok (mkFiles 400 "d1/")
  else if p = "d2" then Except.ok (mkFiles 400 "d2/")
  else Except.ok []

theorem gh_twoDir_example :
    ∃ node, gh_buildTree trivGlobNew trivGlobMatches dirsFetch [] [] [] "" 0 10 =
      Except.ok node ∧ node.file_count = 800 ∧ node.children.length = 2 ∧
      ∀ c ∈ node.children, c.file_count = 400 := by
  obtain ⟨n1, h1, hfc1, hdc1⟩ := gh_buildTree_allFiles trivGlobNew trivGlobMatches
    dirsFetch "d1" (0 + 1) 10 (mkFiles 400 "d1/") (by omega) rfl (mkFiles_files 400 "d1/")
  obtain ⟨n2, h2, hfc2, hdc2⟩ := gh_buildTree_allFiles trivGlobNew trivGlobMatches
    dirsFetch "d2" (0 + 1) 10 (mkFiles 400 "d2/") (by omega) rfl (mkFiles_files 400 "d2/")
  rw [mkFiles_length] at hfc1 hfc2
  have hfc1x : n1.file_count = 400 := by rw [hfc1]; simp [MAX_FILES]
  have hfc2x : n2.file_count = 400 := by rw [hfc2]; simp [MAX_FILES]
  have hcond1 : ¬ (¬ should_include trivGlobNew trivGlobMatches "d1" [] = true ∨
      should_exclude trivGlobNew trivGlobMatches "d1" [] [] = true) := by
    simp [should_include, should_exclude]
  have hcond2 : ¬ (¬ should_include trivGlobNew trivGlobMatches "d2" [] = true ∨
      should_exclude trivGlobNew trivGlobMatches "d2" [] [] = true) := by
    simp [should_include, should_exclude]
  have e2 : gh_processItems trivGlobNew trivGlobMatches dirsFetch [] [] []
      [⟨"d2", "d2", RepoItemType.Directory, none⟩] 0 10
      ([] ++ [n1]) (0 + n1.file_count) (1 + n1.dir_count) (0 + n1.size) =
      Except.ok ([] ++ [n1] ++ [n2], 0 + n1.file_count + n2.file_count,
        1 + n1.dir_count + n2.dir_count, 0 + n1.size + n2.size) := by
    rw [gh_processItems.eq_2, if_neg hcond2]
    dsimp only
    rw [h2]
    dsimp only
    rw [if_pos (by simp only [MAX_FILES]; omega)]
  have e1 : gh_processItems trivGlobNew trivGlobMatches dirsFetch [] [] []
      [⟨"d1", "d1", RepoItemType.Directory, none⟩,
        ⟨"d2", "d2", RepoItemType.Directory, none⟩] 0 10 [] 0 1 0 =
      Except.ok ([] ++ [n1] ++ [n2], 0 + n1.file_count + n2.file_count,
        1 + n1.dir_count + n2.dir_count, 0 + n1.size + n2.size) := by
    rw [gh_processItems.eq_2, if_neg hcond1]
    dsimp only
    rw [h1]
    dsimp only
    rw [if_neg (by simp only [MAX_FILES]; omega)]
    exact e2
  rw [gh_buildTree.eq_def, dif_neg (by omega)]
  have hfr : dirsFetch "" = Except.ok [⟨"d1", "d1", RepoItemType.Directory, none⟩,
      ⟨"d2", "d2", RepoItemType.Directory, none⟩] := rfl
  rw [hfr]
  dsimp only
  rw [e1]
  dsimp only
  refine ⟨_, rfl, ?_, ?_, ?_⟩
  · show 0 + n1.file_count + n2.file_count = 800
    omega
  · show (List.insertionSort nodeLe ([] ++ [n1] ++ [n2])).length = 2
    rw [(List.perm_insertionSort nodeLe _).length_eq]
    rfl
  · intro c hcm
    simp only [RepoNode.children, List.mem_insertionSort] at hcm
    simp only [List.nil_append, List.singleton_append, List.mem_cons,
      List.mem_singleton, List.not_mem_nil, or_false] at hcm
    rcases hcm with h | h
    · rw [h, hfc1x]
    · rw [h, hfc2x]

theorem gl_twoDir_example :
    ∃ node, gl_buildTree trivGlobNew trivGlobMatches dirsFetch [] [] [] "" 0 10 =
      Except.ok node ∧ node.file_count = 800 ∧ node.children.length = 2 ∧
      ∀ c ∈ node.children, c.file_count = 400 := by
  obtain ⟨m1, h1, hfc1, hdc1⟩ := gl_buildTree_allFiles trivGlobNew trivGlobMatches
    dirsFetch "d1" (0 + 1) 10 (mkFiles 400 "d1/") (by omega) rfl (mkFiles_files 400 "d1/")
  obtain ⟨m2, h2, hfc2, hdc2⟩ := gl_buildTree_allFiles trivGlobNew trivGlobMatches
    dirsFetch "d2" (0 + 1) 10 (mkFiles 400 "d2/") (by omega) rfl (mkFiles_files 400 "d2/")
  rw [mkFiles_length] at hfc1 hfc2
  have hfc1x : m1.file_count = 400 := by rw [hfc1]; simp [MAX_FILES]
  have hfc2x : m2.file_count = 400 := by rw [hfc2]; simp [MAX_FILES]
  have e2run : gl_runTasks trivGlobNew trivGlobMatches dirsFetch [] [] []
      ["d2"] (0 + 1) 10 ([] ++ [m1]) (0 + m1.file_count) (1 + m1.dir_count)
      (0 + m1.size) =
      ([] ++ [m1] ++ [m2], 0 + m1.file_count + m2.file_count,
        1 + m1.dir_count + m2.dir_count, 0 + m1.size + m2.size) := by
    rw [gl_runTasks.eq_2, h2]
    dsimp only
    rw [gl_runTasks.eq_1]
  have e1run : gl_runTasks trivGlobNew trivGlobMatches dirsFetch [] [] []
      ["d1", "d2"] (0 + 1) 10 [] 0 1 0 =
      ([] ++ [m1] ++ [m2], 0 + m1.file_count + m2.file_count,
        1 + m1.dir_count + m2.dir_count, 0 + m1.size + m2.size) := by
    rw [gl_runTasks.eq_2, h1]
    dsimp only
    exact e2run
  rw [gl_buildTree.eq_def, dif_neg (by omega)]
  have hfr : dirsFetch "" = Except.ok [⟨"d1", "d1", RepoItemType.Directory, none⟩,
      ⟨"d2", "d2", RepoItemType.Directory, none⟩] := rfl
  rw [hfr]
  dsimp only
  have ecoll : gl_collectItems trivGlobNew trivGlobMatches [] [] []
      [⟨"d1", "d1", RepoItemType.Directory, none⟩,
        ⟨"d2", "d2", RepoItemType.Directory, none⟩] [] 0 0 [] =
      ([], 0, 0, ["d1", "d2"]) := rfl
  rw [ecoll]
  dsimp only
  rw [e1run]
  dsimp only
  refine ⟨_, rfl, ?_, ?_, ?_⟩
  · show 0 + m1.file_count + m2.file_count = 800
    omega
  · show (List.insertionSort nodeLe ([] ++ [m1] ++ [m2])).length = 2
    rw [(List.perm_insertionSort nodeLe _).length_eq]
    rfl
  · intro c hcm
    simp only [RepoNode.children, List.mem_insertionSort] at hcm
    simp only [List.nil_append, List.singleton_append, List.mem_cons,
      List.mem_singleton, List.not_mem_nil, or_false] at hcm
    rcases hcm with h | h
    · rw [h, hfc1x]
    · rw [h, hfc2x]

/-- A concrete fetcher with 502 files at the repository root. -/
def files502Fetch : String → Except String (List RepoItem) := fun p =>
  if p = "" then Except.ok (mkFiles 502 "") else Except.ok []

/-- C3: in `build_tree` (either provider, shown here with empty filter
lists so every entry passes), enumeration of a directory's entries stops
once the running per-level `file_count` exceeds `MAX_FILES` (500): a level
of `n` file entries yields `file_count = min n 501`.  The cap is scoped per
directory level, not globally: with two 400-file subdirectories, each
subdirectory is built in full (400 files each, no truncation at their
levels) and the whole tree's `file_count` reaches 800, exceeding 500. -/
theorem c3_file_cap :
    (∀ (G : Type) (globNew : String → Option G) (globMatches : G → String → Bool)
      (fetch : String → Except String (List RepoItem))
      (path : String) (depth max_depth : Nat) (items : List RepoItem),
      depth ≤ max_depth → fetch path = Except.ok items →
      (∀ it ∈ items, it.item_type = RepoItemType.File) →
      ∃ node, gh_buildTree globNew globMatches fetch [] [] [] path depth max_depth =
        Except.ok node ∧ node.file_count = min items.length (MAX_FILES + 1)) ∧
    (∀ (G : Type) (globNew : String → Option G) (globMatches : G → String → Bool)
      (fetch : String → Except String (List RepoItem))
      (path : String) (depth max_depth : Nat) (items : List RepoItem),
      depth ≤ max_depth → fetch path = Except.ok items →
      (∀ it ∈ items, it.item_type = RepoItemType.File) →
      ∃ node, gl_buildTree globNew globMatches fetch [] [] [] path depth max_depth =
        Except.ok node ∧ node.file_count = min items.length (MAX_FILES + 1)) ∧
    (∃ node, gh_buildTree trivGlobNew trivGlobMatches dirsFetch [] [] [] "" 0 10 =
      Except.ok node ∧ node.file_count = 800 ∧ MAX_FILES < node.file_count ∧
      node.children.length = 2 ∧ ∀ c ∈ node.children, c.file_count = 400) ∧
    (∃ node, gl_buildTree trivGlobNew trivGlobMatches dirsFetch [] [] [] "" 0 10 =
      Except.ok node ∧ node.file_count = 800 ∧ MAX_FILES < node.file_count ∧
      node.children.length = 2 ∧ ∀ c ∈ node.children, c.file_count = 400) := by
  refine ⟨?_, ?_, ?_, ?_⟩
  · intro G gN gM fetch path depth maxD items hdep hfetch hfiles
    obtain ⟨node, hb, hfc, _⟩ :=
      gh_buildTree_allFiles gN gM fetch path depth maxD items hdep hfetch hfiles
    exact ⟨node, hb, hfc⟩
  · intro G gN gM fetch path depth maxD items hdep hfetch hfiles
    obtain ⟨node, hb, hfc, _⟩ :=
      gl_buildTree_allFiles gN gM fetch path depth maxD items hdep hfetch hfiles
    exact ⟨node, hb, hfc⟩
  · obtain ⟨node, hb, hfc, hlen, hmem⟩ := gh_twoDir_example
    exact ⟨node, hb, hfc, by rw [hfc]; simp [MAX_FILES], hlen, hmem⟩
  · obtain ⟨node, hb, hfc, hlen, hmem⟩ := gl_twoDir_example
    exact ⟨node, hb, hfc, by rw [hfc]; simp [MAX_FILES], hlen, hmem⟩

/-- Witness for C3: a root listing of 502 files is truncated to
`file_count = 501` — past the nominal cap of 500, because the loop breaks
only after the count has already exceeded it. -/
theorem c3_file_cap_witness :
    ∃ node, gh_buildTree trivGlobNew trivGlobMatches files502Fetch [] [] [] "" 0 10 =
      Except.ok node ∧ node.file_count = 501 := by
  obtain ⟨node, hb, hfc⟩ := c3_file_cap.1 Unit trivGlobNew trivGlobMatches
    files502Fetch "" 0 10 (mkFiles 502 "") (by omega) rfl (mkFiles_files 502 "")
  refine ⟨node, hb, ?_⟩
  rw [hfc, mkFiles_length]
  simp [MAX_FILES]
